import Mathlib

/- Shallow embedding of `src/MIPS Assembler/assembler.py`.

Modelling conventions:
  * Python strings are Lean `String`s, processed through their character lists.
  * Python dictionaries are association lists with the newest binding first,
    so `List.lookup` returns the latest assignment, matching dictionary reads
    after silent overwrites.
  * Python exceptions (`ValueError` from `int`, `KeyError` from a dictionary
    read, `IndexError` from list indexing) are modelled with `Except PyError`.
  * `int(...)` is modelled for optionally signed decimal literals with
    surrounding whitespace; underscore digit separators and non-ASCII digits
    are not modelled (no input considered here uses them).
  * `format(n, '05b')` / `format(n, '016b')` / `format(n, '026b')` are
    modelled by `pyFormatIntB` / `pyFormatNatB`: the minimal binary digits of
    the magnitude, zero-filled after the sign up to the requested total
    width, and NOT truncated when the value needs more digits. -/

/-- The characters stripped by Python `str.strip()` (ASCII whitespace). -/
def isPySpace (c : Char) : Bool :=
  c == ' ' || c == '\t' || c == '\n' || c == '\r' || c == '\x0b' || c == '\x0c'

/-- Python `s.strip()`: drop leading and trailing whitespace. -/
def pyStrip (s : String) : String :=
  String.mk (((s.data.dropWhile isPySpace).reverse.dropWhile isPySpace).reverse)

/-- Helper for `pySplit`: split a character list at every occurrence of `sep`. -/
def splitCharAux (sep : Char) : List Char → List Char → List String
  | [], acc => [String.mk acc.reverse]
  | c :: cs, acc =>
    if c = sep then String.mk acc.reverse :: splitCharAux sep cs []
    else splitCharAux sep cs (c :: acc)

/-- Python `s.split(sep)` for a one-character separator. -/
def pySplit (s : String) (sep : Char) : List String :=
  splitCharAux sep s.data []

/-- Python `s[n:]`. -/
def pyDrop (s : String) (n : Nat) : String :=
  String.mk (s.data.drop n)

/-- Uppercase an ASCII letter (the mnemonics handled here are ASCII). -/
def pyCharUpper (c : Char) : Char :=
  if 'a' ≤ c ∧ c ≤ 'z' then Char.ofNat (c.toNat - 32) else c

/-- Python `s.upper()` restricted to ASCII content. -/
def pyUpper (s : String) : String :=
  String.mk (s.data.map pyCharUpper)

/-- Decimal value of a digit list (all characters assumed to be digits). -/
def decDigits (l : List Char) : Nat :=
  l.foldl (fun a c => 10 * a + (c.toNat - 48)) 0

/-- Parse a nonempty all-digit character list. -/
def parseDigits (l : List Char) : Option Nat :=
  if l ≠ [] ∧ l.all Char.isDigit then some (decDigits l) else none

/-- Python `int(s)`: strip whitespace, allow one optional sign, then a
nonempty run of decimal digits; `none` models a raised `ValueError`. -/
def pyInt? (s : String) : Option Int :=
  match (pyStrip s).data with
  | '-' :: rest => (parseDigits rest).map (fun n => -(n : Int))
  | '+' :: rest => (parseDigits rest).map (fun n => (n : Int))
  | l => (parseDigits l).map (fun n => (n : Int))

/-- Fuel-driven bit length: `bitLenAux fuel n` is the number of binary digits
of `n` whenever `n ≤ fuel` and `n ≠ 0`. -/
def bitLenAux : Nat → Nat → Nat
  | 0, _ => 0
  | fuel + 1, n => if n = 0 then 0 else bitLenAux fuel (n / 2) + 1

/-- Number of digits in Python's minimal binary rendering of `n` (1 for 0). -/
def bitLen (n : Nat) : Nat :=
  if n = 0 then 1 else bitLenAux n n

/-- The `w` lowest binary digits of `n`, most significant first. -/
def binFixed : Nat → Nat → List Char
  | 0, _ => []
  | w + 1, n => binFixed w (n / 2) ++ [if n % 2 = 1 then '1' else '0']

/-- Python `format(n, '0<w>b')` for nonnegative `n`: minimal binary digits,
zero-padded on the left to width `w`, never truncated. -/
def pyFormatNatB (n w : Nat) : String :=
  String.mk (binFixed (max w (bitLen n)) n)

/-- Python `format(i, '0<w>b')` for any integer: a leading `-` for negative
values, with the zero fill inserted after the sign up to total width `w`. -/
def pyFormatIntB (i : Int) (w : Nat) : String :=
  if i < 0 then "-" ++ pyFormatNatB i.natAbs (w - 1) else pyFormatNatB i.toNat w

/-- Value of a binary digit string (non-`'1'` characters count as 0). -/
def decodeBits (l : List Char) : Nat :=
  l.foldl (fun a c => 2 * a + (if c = '1' then 1 else 0)) 0

/-- Read a 16-character binary field as a signed two's-complement value. -/
def decodeSigned16 (s : String) : Int :=
  if 32768 ≤ decodeBits s.data then (decodeBits s.data : Int) - 65536
  else (decodeBits s.data : Int)

/-- The Python exceptions the embedded code can raise. -/
inductive PyError where
  | valueError
  | keyError
  | indexError
deriving DecidableEq, Repr

/-- Python list indexing `l[i]`; raises `IndexError` when out of range. -/
def pyIndex (l : List String) (i : Nat) : Except PyError String :=
  match l[i]? with
  | some x => Except.ok x
  | none => Except.error PyError.indexError

/-- Python dictionary read `d[k]`; raises `KeyError` when the key is absent. -/
def pyDictGet (d : List (String × Nat)) (k : String) : Except PyError Nat :=
  match d.lookup k with
  | some v => Except.ok v
  | none => Except.error PyError.keyError

/-- `instruction_set['R']` from assembler.py. -/
def rTable : List (String × String) :=
  [("ADD", "100000"), ("SUB", "100010"), ("AND", "100100"), ("OR", "100101"),
   ("SLL", "000000"), ("SRL", "000010"), ("SLLV", "000100"), ("SRLV", "000110")]

/-- `instruction_set['I']` from assembler.py. -/
def iTable : List (String × String) :=
  [("ADDI", "001000"), ("ANDI", "001100"), ("LW", "100011"), ("SW", "101011"),
   ("BEQ", "000100"), ("BNE", "000101"), ("BLEZ", "000110"), ("BGTZ", "000111")]

/-- `instruction_set['J']` from assembler.py. -/
def jTable : List (String × String) :=
  [("J", "000010")]

/-- `reg_to_bin` from assembler.py: `format(int(reg[1:]), '05b')`.  The first
character is stripped unconditionally; `int` failures raise `ValueError`. -/
def reg_to_bin (reg : String) : Except PyError String :=
  match pyInt? (pyDrop reg 1) with
  | none => Except.error PyError.valueError
  | some n => Except.ok (pyFormatIntB n 5)

/-- Helper for `splitInstr`; the fuel argument bounds the list length, so
with `fuel = length` the whole input is consumed. -/
def splitInstrAux : Nat → List Char → List Char → List String
  | 0, _, acc => [String.mk acc.reverse]
  | _ + 1, [], acc => [String.mk acc.reverse]
  | fuel + 1, c :: cs, acc =>
    if c == ',' || isPySpace c then
      String.mk acc.reverse :: splitInstrAux fuel (cs.dropWhile isPySpace) []
    else splitInstrAux fuel cs (c :: acc)

/-- Python `re.split(r'[,\s]\s*', instruction)`: each separator is one comma
or whitespace character followed by a greedy run of whitespace. -/
def splitInstr (s : String) : List String :=
  splitInstrAux s.data.length s.data []

/-- `instruction_to_machine_code` from assembler.py.  The value is
`Except.ok (some word)` for an encoded instruction, `Except.ok none` for the
implicit Python `return None` fall-through, and `Except.error e` for a raised
exception. -/
def instruction_to_machine_code (instruction : String)
    (labels : List (String × Nat)) (current_address : Nat) :
    Except PyError (Option String) :=
  let parts := splitInstr instruction
  let opcode := parts.headD ""
  let rest := parts.tail
  if (rTable.lookup (pyUpper opcode)).isSome then do
    let t0 ← pyIndex rest 0
    let rd ← reg_to_bin t0
    let t1 ← pyIndex rest 1
    let rs ← reg_to_bin t1
    let t2 ← pyIndex rest 2
    let rt ← reg_to_bin t2
    let shamt ← if ["SLL", "SRL"].contains (pyUpper opcode) then do
        let t3 ← pyIndex rest 3
        match pyInt? t3 with
        | none => Except.error PyError.valueError
        | some k => Except.ok (pyFormatIntB k 5)
      else Except.ok "00000"
    let funct := (rTable.lookup (pyUpper opcode)).getD ""
    Except.ok (some ("000000" ++ rs ++ rt ++ rd ++ shamt ++ funct))
  else if (iTable.lookup (pyUpper opcode)).isSome then do
    let t0 ← pyIndex rest 0
    let rt ← reg_to_bin t0
    let t1 ← pyIndex rest 1
    let rs ← reg_to_bin t1
    let op := (iTable.lookup (pyUpper opcode)).getD ""
    if ["LW", "SW"].contains (pyUpper opcode) then do
      let t2 ← pyIndex rest 2
      match pyInt? t2 with
      | none => Except.error PyError.valueError
      | some offset => Except.ok (some (op ++ rs ++ rt ++ pyFormatIntB offset 16))
    else if ["BEQ", "BNE"].contains (pyUpper opcode) then do
      let t2 ← pyIndex rest 2
      let target ← pyDictGet labels t2
      let offset : Int := Int.fdiv ((target : Int) - (current_address : Int) - 4) 4
      Except.ok (some (op ++ rs ++ rt ++ pyFormatNatB (offset % 65536).toNat 16))
    else do
      let t2 ← pyIndex rest 2
      match pyInt? t2 with
      | none => Except.error PyError.valueError
      | some imm => Except.ok (some (op ++ rs ++ rt ++ pyFormatNatB (imm % 65536).toNat 16))
  else if (jTable.lookup (pyUpper opcode)).isSome then do
    let t0 ← pyIndex rest 0
    let target ← pyDictGet labels t0
    let address := target >>> 2
    Except.ok (some ((jTable.lookup (pyUpper opcode)).getD "" ++ pyFormatNatB address 26))
  else Except.ok none

/-- Scanner state of `parse_source_code`: label table, emitted instruction
records, and the running address counter. -/
structure ScanState where
  labels : List (String × Nat)
  instructions : List (Nat × String)
  address : Nat
deriving DecidableEq, Repr

/-- `line.split('#')[0].strip()`: the comment-stripped, trimmed line. -/
def cleanedLine (rawLine : String) : String :=
  pyStrip ((pySplit rawLine '#').headD "")

/-- `line.split(':')[0].strip()`: the text before the first colon. -/
def labelPart (l : String) : String :=
  pyStrip ((pySplit l ':').headD "")

/-- `line.split(':')[1].strip()`: the text between the first and the second
colon (everything after the first colon when there is no second one). -/
def instrPart (l : String) : String :=
  pyStrip (((pySplit l ':')[1]?).getD "")

/-- One iteration of the scan loop in `parse_source_code`.  When the line has
a colon, the label binds to the current address and the remaining text (if
any) is emitted at that address; otherwise the whole line is emitted. -/
def processLine (st : ScanState) (rawLine : String) : ScanState :=
  if cleanedLine rawLine = "" then st
  else if (cleanedLine rawLine).data.contains ':' then
    if instrPart (cleanedLine rawLine) = "" then
      { st with labels := (labelPart (cleanedLine rawLine), st.address) :: st.labels }
    else
      ScanState.mk ((labelPart (cleanedLine rawLine), st.address) :: st.labels)
        (st.instructions ++ [(st.address, instrPart (cleanedLine rawLine))]) (st.address + 4)
  else
    ScanState.mk st.labels
      (st.instructions ++ [(st.address, cleanedLine rawLine)]) (st.address + 4)

/-- The scanner's initial state: empty tables, address `0x00400000`. -/
def initState : ScanState :=
  ScanState.mk [] [] 0x00400000

/-- `parse_source_code` from assembler.py, over an in-memory line sequence
(file reading is external to the core). -/
def parse_source_code (lines : List String) : List (String × Nat) × List (Nat × String) :=
  let st := lines.foldl processLine initState
  (st.labels, st.instructions)

/- ### Infrastructure lemmas -/

lemma string_data_append (s t : String) : (s ++ t).data = s.data ++ t.data := by
  cases s; cases t; rfl

lemma except_bind_ok {α β : Type} (a : α) (f : α → Except PyError β) :
    (Except.ok a >>= f : Except PyError β) = f a := rfl

lemma pyIndex_cons_zero (x : String) (l : List String) :
    pyIndex (x :: l) 0 = Except.ok x := by
  simp [pyIndex]

lemma pyIndex_cons_succ (x : String) (l : List String) (i : Nat) :
    pyIndex (x :: l) (i + 1) = pyIndex l i := by
  simp [pyIndex]

lemma lookup_mem_assoc {β : Type} (l : List (String × β)) (k : String) (v : β)
    (h : l.lookup k = some v) : (k, v) ∈ l := by
  induction l with
  | nil => simp at h
  | cons p rest ih =>
    obtain ⟨a, b⟩ := p
    rw [List.lookup] at h
    split at h
    · rename_i heq
      rw [beq_iff_eq] at heq
      subst heq
      cases h
      exact List.mem_cons_self _ _
    · exact List.mem_cons_of_mem _ (ih h)

lemma binFixed_length (w : Nat) : ∀ n : Nat, (binFixed w n).length = w := by
  induction w with
  | zero => intro n; rfl
  | succ w ih => intro n; simp [binFixed, ih]

lemma decodeBits_append_bit (l : List Char) (c : Char) :
    decodeBits (l ++ [c]) = 2 * decodeBits l + (if c = '1' then 1 else 0) := by
  simp [decodeBits, List.foldl_append]

lemma decodeBits_binFixed (w : Nat) : ∀ n : Nat, decodeBits (binFixed w n) = n % 2 ^ w := by
  induction w with
  | zero => intro n; simp [binFixed, decodeBits, Nat.mod_one]
  | succ w ih =>
    intro n
    rw [binFixed, decodeBits_append_bit, ih]
    have hpow : (2 : Nat) ^ (w + 1) = 2 * 2 ^ w := by ring
    rw [hpow, Nat.mod_mul]
    rcases Nat.mod_two_eq_zero_or_one n with h | h
    · rw [h]
      simp
      try omega
    · rw [h]
      simp
      try omega

lemma bitLenAux_le (fuel : Nat) : ∀ n w : Nat, n ≤ fuel → n < 2 ^ w → bitLenAux fuel n ≤ w := by
  induction fuel with
  | zero => intro n w _ _; simp [bitLenAux]
  | succ fuel ih =>
    intro n w h1 h2
    rw [bitLenAux]
    by_cases hn : n = 0
    · simp [hn]
    · rw [if_neg hn]
      cases w with
      | zero => omega
      | succ w' =>
        have hx : n < 2 ^ w' * 2 := by rw [← pow_succ]; exact h2
        have := ih (n / 2) w' (by omega) (by omega)
        omega

lemma lt_bitLenAux (fuel : Nat) : ∀ n w : Nat, n ≤ fuel → 2 ^ w ≤ n → w < bitLenAux fuel n := by
  induction fuel with
  | zero =>
    intro n w h1 h2
    have := pow_pos (by norm_num : (0 : Nat) < 2) w
    omega
  | succ fuel ih =>
    intro n w h1 h2
    have hp := pow_pos (by norm_num : (0 : Nat) < 2) w
    have hn : n ≠ 0 := by omega
    rw [bitLenAux, if_neg hn]
    cases w with
    | zero => omega
    | succ w' =>
      have hx : 2 ^ w' * 2 ≤ n := by rw [← pow_succ]; exact h2
      have hp' := pow_pos (by norm_num : (0 : Nat) < 2) w'
      have := ih (n / 2) w' (by omega) (by omega)
      omega

lemma bitLen_le (n w : Nat) (h : n < 2 ^ w) (hw : 1 ≤ w) : bitLen n ≤ w := by
  unfold bitLen
  by_cases hn : n = 0
  · simp [hn]; omega
  · rw [if_neg hn]; exact bitLenAux_le n n w le_rfl h

lemma pyFormatNatB_eq (n w : Nat) (h : n < 2 ^ w) (hw : 1 ≤ w) :
    pyFormatNatB n w = String.mk (binFixed w n) := by
  unfold pyFormatNatB
  rw [Nat.max_eq_left (bitLen_le n w h hw)]

lemma decodeSigned16_roundtrip (o : Int) (h1 : -32768 ≤ o) (h2 : o < 32768) :
    decodeSigned16 (String.mk (binFixed 16 (o % 65536).toNat)) = o := by
  have hnn : 0 ≤ o % 65536 := Int.emod_nonneg o (by norm_num)
  have hlt : o % 65536 < 65536 := Int.emod_lt_of_pos o (by norm_num)
  unfold decodeSigned16
  rw [show (String.mk (binFixed 16 (o % 65536).toNat)).data = binFixed 16 (o % 65536).toNat
    from rfl]
  rw [decodeBits_binFixed]
  have hmod : (o % 65536).toNat % 2 ^ 16 = (o % 65536).toNat := Nat.mod_eq_of_lt (by omega)
  rw [hmod]
  split <;> omega

lemma rTable_val_length (k v : String) (h : rTable.lookup k = some v) : v.length = 6 := by
  have hm := lookup_mem_assoc rTable k v h
  have : ∀ p ∈ rTable, p.2.length = 6 := by decide
  exact this (k, v) hm

/- ### Scanner invariant -/

/-- Invariant maintained by the scan loop: the address counter is the base
plus 4 per emitted record, every record's address is determined by its index,
and every label binding is the base plus 4 times a count of records that had
been emitted when the label was bound. -/
def ScanInv (st : ScanState) : Prop :=
  st.address = 0x00400000 + 4 * st.instructions.length ∧
  (∀ (i : Nat) (p : Nat × String), st.instructions[i]? = some p →
    p.1 = 0x00400000 + 4 * i) ∧
  (∀ p : String × Nat, p ∈ st.labels →
    ∃ k, k ≤ st.instructions.length ∧ p.2 = 0x00400000 + 4 * k)

lemma snoc_getElem? {α : Type} (l : List α) (x : α) (i : Nat) (p : α)
    (h : (l ++ [x])[i]? = some p) : (i < l.length ∧ l[i]? = some p) ∨ (i = l.length ∧ p = x) := by
  by_cases hi : i < l.length
  · left
    refine ⟨hi, ?_⟩
    rwa [List.getElem?_append, if_pos hi] at h
  · right
    rw [List.getElem?_append_right (by omega)] at h
    rcases Nat.lt_or_ge (i - l.length) 1 with h1 | h1
    · have : i - l.length = 0 := by omega
      rw [this] at h
      simp at h
      exact ⟨by omega, h.symm⟩
    · have : ([x] : List α)[i - l.length]? = none := by
        apply List.getElem?_eq_none
        simpa using h1
      rw [this] at h
      cases h

lemma processLine_inv (st : ScanState) (line : String) (h : ScanInv st) :
    ScanInv (processLine st line) := by
  obtain ⟨h1, h2, h3⟩ := h
  unfold processLine
  split
  · exact ⟨h1, h2, h3⟩
  · split
    · split
      · -- label bound, no instruction emitted
        refine ⟨h1, h2, ?_⟩
        intro p hp
        rcases List.mem_cons.mp hp with hp | hp
        · exact ⟨st.instructions.length, le_rfl, by rw [hp, ← h1]⟩
        · exact h3 p hp
      · -- label bound and an instruction emitted
        refine ⟨?_, ?_, ?_⟩
        · simp [h1]; omega
        · intro i p hp
          rcases snoc_getElem? _ _ _ _ hp with ⟨_, hip⟩ | ⟨hi, hpx⟩
          · exact h2 i p hip
          · rw [hpx, hi, ← h1]
        · intro p hp
          rcases List.mem_cons.mp hp with hp | hp
          · refine ⟨st.instructions.length, by simp, by rw [hp, ← h1]⟩
          · obtain ⟨k, hk1, hk2⟩ := h3 p hp
            exact ⟨k, by simp; omega, hk2⟩
    · -- no label, an instruction emitted
      refine ⟨?_, ?_, ?_⟩
      · simp [h1]; omega
      · intro i p hp
        rcases snoc_getElem? _ _ _ _ hp with ⟨_, hip⟩ | ⟨hi, hpx⟩
        · exact h2 i p hip
        · rw [hpx, hi, ← h1]
      · intro p hp
        obtain ⟨k, hk1, hk2⟩ := h3 p hp
        exact ⟨k, by simp; omega, hk2⟩

lemma foldl_inv (lines : List String) : ∀ st : ScanState, ScanInv st →
    ScanInv (lines.foldl processLine st) := by
  induction lines with
  | nil => intro st h; exact h
  | cons x xs ih => intro st h; exact ih _ (processLine_inv st x h)

lemma initState_inv : ScanInv initState := by
  refine ⟨rfl, ?_, ?_⟩
  · intro i p hp
    simp [initState] at hp
  · intro p hp
    simp [initState] at hp

lemma parse_inv (lines : List String) : ScanInv (lines.foldl processLine initState) :=
  foldl_inv lines initState initState_inv

lemma parse_instr_addr (lines : List String) (i a : Nat) (s : String)
    (h : (parse_source_code lines).2[i]? = some (a, s)) : a = 0x00400000 + 4 * i :=
  (parse_inv lines).2.1 i (a, s) h

lemma parse_label_addr (lines : List String) (nm : String) (a : Nat)
    (h : (parse_source_code lines).1.lookup nm = some a) :
    ∃ k, k ≤ (parse_source_code lines).2.length ∧ a = 0x00400000 + 4 * k :=
  (parse_inv lines).2.2 (nm, a) (lookup_mem_assoc _ nm a h)

/- ### Encoder branch characterizations -/

lemma unknown_mnemonic_none (instr : String) (labels : List (String × Nat)) (addr : Nat)
    (h1 : rTable.lookup (pyUpper ((splitInstr instr).headD "")) = none)
    (h2 : iTable.lookup (pyUpper ((splitInstr instr).headD "")) = none)
    (h3 : jTable.lookup (pyUpper ((splitInstr instr).headD "")) = none) :
    instruction_to_machine_code instr labels addr = Except.ok none := by
  simp only [instruction_to_machine_code]
  rw [h1, h2, h3]
  simp

lemma encode_branch (instr m t0 t1 t2 : String) (extra : List String)
    (labels : List (String × Nat)) (current target : Nat) (rtS rsS op : String)
    (hsplit : splitInstr instr = m :: t0 :: t1 :: t2 :: extra)
    (hup : pyUpper m = "BEQ" ∧ op = "000100" ∨ pyUpper m = "BNE" ∧ op = "000101")
    (h0 : reg_to_bin t0 = Except.ok rtS)
    (h1 : reg_to_bin t1 = Except.ok rsS)
    (hlab : labels.lookup t2 = some target) :
    instruction_to_machine_code instr labels current =
      Except.ok (some (op ++ rsS ++ rtS ++
        pyFormatNatB (Int.fdiv ((target : Int) - (current : Int) - 4) 4 % 65536).toNat 16)) := by
  rcases hup with ⟨hm, hop⟩ | ⟨hm, hop⟩
  · subst hop
    simp only [instruction_to_machine_code]
    rw [hsplit]
    simp only [List.headD_cons, List.tail_cons]
    rw [hm]
    rw [show rTable.lookup "BEQ" = none from rfl]
    rw [show iTable.lookup "BEQ" = some "000100" from rfl]
    rw [show (["LW", "SW"].contains "BEQ") = false from rfl]
    rw [show (["BEQ", "BNE"].contains "BEQ") = true from rfl]
    simp only [pyIndex_cons_zero, pyIndex_cons_succ, except_bind_ok, h0, h1, pyDictGet, hlab]
    simp
  · subst hop
    simp only [instruction_to_machine_code]
    rw [hsplit]
    simp only [List.headD_cons, List.tail_cons]
    rw [hm]
    rw [show rTable.lookup "BNE" = none from rfl]
    rw [show iTable.lookup "BNE" = some "000101" from rfl]
    rw [show (["LW", "SW"].contains "BNE") = false from rfl]
    rw [show (["BEQ", "BNE"].contains "BNE") = true from rfl]
    simp only [pyIndex_cons_zero, pyIndex_cons_succ, except_bind_ok, h0, h1, pyDictGet, hlab]
    simp

/-- Claim C1: for a `BEQ`/`BNE` record scanned by the assembler whose third
operand is a label bound by the scan, the 16-bit offset field is
`(target - current - 4) >> 2` masked to 16 bits, and decoding that field as a
signed value, multiplying by 4 and adding `current + 4` reproduces the
label's address, provided the word offset fits in signed 16 bits. -/
theorem beq_offset_roundtrip
    (lines : List String) (i current : Nat) (instr m t0 t1 t2 : String)
    (extra : List String) (rtS rsS : String) (target : Nat)
    (hrec : (parse_source_code lines).2[i]? = some (current, instr))
    (hsplit : splitInstr instr = m :: t0 :: t1 :: t2 :: extra)
    (hm : pyUpper m = "BEQ" ∨ pyUpper m = "BNE")
    (h0 : reg_to_bin t0 = Except.ok rtS)
    (h1 : reg_to_bin t1 = Except.ok rsS)
    (hlab : (parse_source_code lines).1.lookup t2 = some target)
    (hfit1 : -32768 ≤ Int.fdiv ((target : Int) - (current : Int) - 4) 4)
    (hfit2 : Int.fdiv ((target : Int) - (current : Int) - 4) 4 < 32768) :
    instruction_to_machine_code instr (parse_source_code lines).1 current =
      Except.ok (some ((if pyUpper m = "BEQ" then "000100" else "000101") ++ rsS ++ rtS ++
        String.mk (binFixed 16
          (Int.fdiv ((target : Int) - (current : Int) - 4) 4 % 65536).toNat))) ∧
    decodeSigned16 (String.mk (binFixed 16
        (Int.fdiv ((target : Int) - (current : Int) - 4) 4 % 65536).toNat)) * 4 +
      (current : Int) + 4 = (target : Int) := by
  have hcur : current = 0x00400000 + 4 * i := parse_instr_addr lines i current instr hrec
  obtain ⟨k, hk1, hk2⟩ := parse_label_addr lines t2 target hlab
  have hnn : (0 : Int) ≤ Int.fdiv ((target : Int) - (current : Int) - 4) 4 % 65536 :=
    Int.emod_nonneg _ (by norm_num)
  have hlt : Int.fdiv ((target : Int) - (current : Int) - 4) 4 % 65536 < 65536 :=
    Int.emod_lt_of_pos _ (by norm_num)
  have hbound : (Int.fdiv ((target : Int) - (current : Int) - 4) 4 % 65536).toNat < 2 ^ 16 := by
    omega
  have hop : (if pyUpper m = "BEQ" then "000100" else "000101") = "000100" ∨
      (if pyUpper m = "BEQ" then "000100" else "000101") = "000101" := by
    rcases hm with hm | hm
    · left; rw [if_pos hm]
    · right; rw [hm]; rfl
  constructor
  · have hup : pyUpper m = "BEQ" ∧
        (if pyUpper m = "BEQ" then "000100" else "000101") = "000100" ∨
        pyUpper m = "BNE" ∧
        (if pyUpper m = "BEQ" then "000100" else "000101") = "000101" := by
      rcases hm with hm | hm
      · exact Or.inl ⟨hm, by rw [if_pos hm]⟩
      · exact Or.inr ⟨hm, by rw [hm]; rfl⟩
    have he := encode_branch instr m t0 t1 t2 extra (parse_source_code lines).1 current target
      rtS rsS _ hsplit hup h0 h1 hlab
    rw [pyFormatNatB_eq _ 16 hbound (by norm_num)] at he
    exact he
  · have hd : ((target : Int) - (current : Int) - 4) = 4 * ((k : Int) - (i : Int) - 1) := by
      rw [hk2, hcur]; push_cast; ring
    have ho : Int.fdiv ((target : Int) - (current : Int) - 4) 4 = (k : Int) - (i : Int) - 1 := by
      rw [hd]; exact Int.mul_fdiv_cancel_left _ (by norm_num)
    rw [ho] at hfit1 hfit2 ⊢
    rw [decodeSigned16_roundtrip _ hfit1 hfit2]
    omega

/-- Witness for C1 on a concrete program: `LOOP:` binds `0x00400000`, the
branch sits at `0x00400008`, and the encoded backward offset `-2` decodes
back to the label's address. -/
theorem beq_offset_roundtrip_witness :
    instruction_to_machine_code "BEQ $8,$9,LOOP"
        (parse_source_code ["LOOP:", "ADD $1,$2,$3", "BEQ $8,$9,LOOP"]).1 4194308 =
      Except.ok (some ("000100" ++ "01001" ++ "01000" ++ String.mk (binFixed 16 65534))) ∧
    decodeSigned16 (String.mk (binFixed 16 65534)) * 4 + 4194308 + 4 = 4194304 := by
  exact beq_offset_roundtrip ["LOOP:", "ADD $1,$2,$3", "BEQ $8,$9,LOOP"] 1 4194308
    "BEQ $8,$9,LOOP" "BEQ" "$8" "$9" "LOOP" [] "01000" "01001" 4194304
    rfl rfl (Or.inl rfl) rfl rfl rfl (by decide) (by decide)

lemma encode_j (instr m t0 : String) (extra : List String)
    (labels : List (String × Nat)) (current target : Nat)
    (hsplit : splitInstr instr = m :: t0 :: extra)
    (hm : pyUpper m = "J")
    (hlab : labels.lookup t0 = some target) :
    instruction_to_machine_code instr labels current =
      Except.ok (some ("000010" ++ pyFormatNatB (target >>> 2) 26)) := by
  simp only [instruction_to_machine_code]
  rw [hsplit]
  simp only [List.headD_cons, List.tail_cons]
  rw [hm]
  rw [show rTable.lookup "J" = none from rfl]
  rw [show iTable.lookup "J" = none from rfl]
  rw [show jTable.lookup "J" = some "000010" from rfl]
  simp only [pyIndex_cons_zero, except_bind_ok, pyDictGet, hlab]
  simp

/-- Claim C7: a `J` instruction whose operand is a label bound by the scan
encodes as opcode `000010` followed by the 26-bit field `target >> 2`, and
decoding the field and shifting left by 2 reproduces the label's address
whenever the address's top 6 bits are zero (`target < 2^26`). -/
theorem j_target_roundtrip (lines : List String) (instr m t0 : String)
    (extra : List String) (current target : Nat)
    (hsplit : splitInstr instr = m :: t0 :: extra)
    (hm : pyUpper m = "J")
    (hlab : (parse_source_code lines).1.lookup t0 = some target)
    (hrange : target < 67108864) :
    instruction_to_machine_code instr (parse_source_code lines).1 current =
      Except.ok (some ("000010" ++ String.mk (binFixed 26 (target >>> 2)))) ∧
    decodeBits (binFixed 26 (target >>> 2)) * 4 = target := by
  obtain ⟨k, hk1, hk2⟩ := parse_label_addr lines t0 target hlab
  have hshift : target >>> 2 = target / 4 := by
    rw [Nat.shiftRight_eq_div_pow]
  have hpow : (2 : Nat) ^ 26 = 67108864 := by norm_num
  have hlt : target >>> 2 < 2 ^ 26 := by
    rw [hshift, hpow]
    omega
  constructor
  · have he := encode_j instr m t0 extra (parse_source_code lines).1 current target
      hsplit hm hlab
    rw [pyFormatNatB_eq _ 26 hlt (by norm_num)] at he
    exact he
  · rw [decodeBits_binFixed, Nat.mod_eq_of_lt hlt, hshift]
    omega

/-- Witness for C7: label `TARGET` at `0x00400000`; the `J` encoding's 26-bit
field is `0x00400000 >> 2 = 0x00100000` and decodes back to the address. -/
theorem j_target_roundtrip_witness :
    instruction_to_machine_code "J TARGET" (parse_source_code ["TARGET:"]).1 0 =
      Except.ok (some ("000010" ++ String.mk (binFixed 26 (4194304 >>> 2)))) ∧
    decodeBits (binFixed 26 (4194304 >>> 2)) * 4 = 4194304 := by
  exact j_target_roundtrip ["TARGET:"] "J TARGET" "J" "TARGET" [] 0 4194304
    rfl rfl rfl (by norm_num)

lemma pyFormatIntB_nat (n w : Nat) (h : n < 2 ^ w) (hw : 1 ≤ w) :
    pyFormatIntB (n : Int) w = String.mk (binFixed w n) := by
  rw [pyFormatIntB, if_neg (by omega), Int.toNat_natCast, pyFormatNatB_eq n w h hw]

lemma reg_to_bin_ok (t : String) (n : Nat) (h : pyInt? (pyDrop t 1) = some (n : Int))
    (hn : n < 32) : reg_to_bin t = Except.ok (String.mk (binFixed 5 n)) := by
  unfold reg_to_bin
  rw [h]
  show Except.ok (pyFormatIntB ((n : Nat) : Int) 5) = Except.ok (String.mk (binFixed 5 n))
  rw [pyFormatIntB_nat n 5 (by norm_num; omega) (by norm_num)]

lemma take_drop_fields (A B C S F : List Char) (hA : A.length = 5) (hB : B.length = 5)
    (hC : C.length = 5) (hS : S.length = 5) :
    ("000000".data ++ A ++ B ++ C ++ S ++ F).take 6 = "000000".data ∧
    ("000000".data ++ A ++ B ++ C ++ S ++ F).drop 26 = F := by
  constructor
  · rw [show "000000".data ++ A ++ B ++ C ++ S ++ F =
      "000000".data ++ (A ++ B ++ C ++ S ++ F) by simp [List.append_assoc]]
    rw [show (6 : Nat) = ("000000".data).length from rfl]
    exact List.take_left _ _
  · have hbig : ("000000".data ++ A ++ B ++ C ++ S).length = 26 := by
      simp [hA, hB, hC, hS]
    rw [show "000000".data ++ A ++ B ++ C ++ S ++ F =
      ("000000".data ++ A ++ B ++ C ++ S) ++ F from rfl]
    rw [← hbig]
    exact List.drop_left _ _

/-- Claim C4: an R-type instruction with operands `rd, rs, rt` (5-bit valid
register numbers, plus a valid literal `shamt` fourth operand for `SLL`/`SRL`
and `shamt = 0` otherwise) encodes as the concatenation
`000000 ++ rs ++ rt ++ rd ++ shamt ++ funct`; in particular the first 6
characters are `000000` and the last 6 equal the table's function code. -/
theorem rtype_layout
    (instr m t0 t1 t2 : String) (extra : List String)
    (labels : List (String × Nat)) (addr : Nat)
    (rd rs rt : Nat) (funct shS : String)
    (hsplit : splitInstr instr = m :: t0 :: t1 :: t2 :: extra)
    (hf : rTable.lookup (pyUpper m) = some funct)
    (h0 : pyInt? (pyDrop t0 1) = some (rd : Int)) (hrd : rd < 32)
    (h1 : pyInt? (pyDrop t1 1) = some (rs : Int)) (hrs : rs < 32)
    (h2 : pyInt? (pyDrop t2 1) = some (rt : Int)) (hrt : rt < 32)
    (hsh : if ["SLL", "SRL"].contains (pyUpper m) then
        ∃ t3 sh, extra[0]? = some t3 ∧ pyInt? t3 = some ((sh : Nat) : Int) ∧ sh < 32 ∧
          shS = String.mk (binFixed 5 sh)
      else shS = "00000") :
    instruction_to_machine_code instr labels addr =
      Except.ok (some ("000000" ++ String.mk (binFixed 5 rs) ++ String.mk (binFixed 5 rt) ++
        String.mk (binFixed 5 rd) ++ shS ++ funct)) ∧
    ("000000" ++ String.mk (binFixed 5 rs) ++ String.mk (binFixed 5 rt) ++
      String.mk (binFixed 5 rd) ++ shS ++ funct).data.take 6 = "000000".data ∧
    ("000000" ++ String.mk (binFixed 5 rs) ++ String.mk (binFixed 5 rt) ++
      String.mk (binFixed 5 rd) ++ shS ++ funct).data.drop 26 = funct.data := by
  have hShLen : shS.data.length = 5 := by
    by_cases hc : (["SLL", "SRL"].contains (pyUpper m)) = true
    · rw [if_pos hc] at hsh
      obtain ⟨t3, sh, _, _, _, he⟩ := hsh
      rw [he]
      exact binFixed_length 5 sh
    · rw [if_neg hc] at hsh
      rw [hsh]
      rfl
  have hdata : ("000000" ++ String.mk (binFixed 5 rs) ++ String.mk (binFixed 5 rt) ++
      String.mk (binFixed 5 rd) ++ shS ++ funct).data =
      "000000".data ++ binFixed 5 rs ++ binFixed 5 rt ++ binFixed 5 rd ++ shS.data ++
        funct.data := by
    simp only [string_data_append]
  have htd := take_drop_fields (binFixed 5 rs) (binFixed 5 rt) (binFixed 5 rd) shS.data
    funct.data (binFixed_length 5 rs) (binFixed_length 5 rt) (binFixed_length 5 rd) hShLen
  refine ⟨?_, by rw [hdata]; exact htd.1, by rw [hdata]; exact htd.2⟩
  simp only [instruction_to_machine_code]
  rw [hsplit]
  simp only [List.headD_cons, List.tail_cons]
  rw [hf]
  simp only [Option.isSome_some, if_true]
  simp only [pyIndex_cons_zero, pyIndex_cons_succ, except_bind_ok,
    reg_to_bin_ok t0 rd h0 hrd, reg_to_bin_ok t1 rs h1 hrs, reg_to_bin_ok t2 rt h2 hrt]
  by_cases hc : (["SLL", "SRL"].contains (pyUpper m)) = true
  · rw [if_pos hc] at hsh
    obtain ⟨t3, sh, he0, he1, hsh32, he3⟩ := hsh
    rw [hc]
    simp only [if_true]
    simp only [pyIndex, he0, except_bind_ok, he1]
    rw [pyFormatIntB_nat sh 5 (by norm_num; omega) (by norm_num)]
    simp only [except_bind_ok, Option.getD_some]
    rw [he3]
  · rw [if_neg hc] at hsh
    rw [if_neg hc]
    simp only [except_bind_ok, Option.getD_some]
    rw [hsh]

/-- Witness for C4: `ADD $8, $9, $10` encodes with opcode `000000`,
`rs = $9`, `rt = $10`, `rd = $8`, `shamt = 00000`, `funct = 100000`. -/
theorem rtype_layout_witness :
    instruction_to_machine_code "ADD $8, $9, $10" [] 4194304 =
      Except.ok (some ("000000" ++ String.mk (binFixed 5 9) ++ String.mk (binFixed 5 10) ++
        String.mk (binFixed 5 8) ++ "00000" ++ "100000")) ∧
    ("000000" ++ String.mk (binFixed 5 9) ++ String.mk (binFixed 5 10) ++
      String.mk (binFixed 5 8) ++ "00000" ++ "100000").data.take 6 = "000000".data ∧
    ("000000" ++ String.mk (binFixed 5 9) ++ String.mk (binFixed 5 10) ++
      String.mk (binFixed 5 8) ++ "00000" ++ "100000").data.drop 26 = "100000".data := by
  exact rtype_layout "ADD $8, $9, $10" "ADD" "$8" "$9" "$10" [] [] 4194304 8 9 10
    "100000" "00000" rfl rfl rfl (by norm_num) rfl (by norm_num) rfl (by norm_num) rfl

/- ### Scanner claims -/

/-- Claim C2: every record retained by the scan pass has address
`0x00400000 + 4 * i`, where `i` is its index (from 0) in the ordered
instruction list. -/
theorem scan_addresses_linear (lines : List String) (i a : Nat) (s : String)
    (h : (parse_source_code lines).2[i]? = some (a, s)) :
    a = 0x00400000 + 4 * i :=
  parse_instr_addr lines i a s h

/-- Witness for C2 on a two-line program: the second record sits at
`0x00400004 = 0x00400000 + 4 * 1`. -/
theorem scan_addresses_linear_witness :
    (parse_source_code ["ADD $1,$2,$3", "SUB $1,$2,$3"]).2[1]? =
      some (4194308, "SUB $1,$2,$3") ∧ (4194308 : Nat) = 0x00400000 + 4 * 1 :=
  ⟨rfl, scan_addresses_linear ["ADD $1,$2,$3", "SUB $1,$2,$3"] 1 4194308 "SUB $1,$2,$3" rfl⟩

/-- Claim C8: a line consisting solely of a label binds the label at the
current address, emits no record, and leaves the address counter unchanged;
consequently every label binding is the base plus 4 times a record count, and
equals the address of the next emitted record when one exists (otherwise the
address the next record would have received). -/
theorem label_only_line_behavior :
    (∀ (st : ScanState) (line : String),
      cleanedLine line ≠ "" →
      (cleanedLine line).data.contains ':' = true →
      instrPart (cleanedLine line) = "" →
      processLine st line =
        ScanState.mk ((labelPart (cleanedLine line), st.address) :: st.labels)
          st.instructions st.address) ∧
    (∀ (lines : List String) (nm : String) (a : Nat),
      (parse_source_code lines).1.lookup nm = some a →
      ∃ k, k ≤ (parse_source_code lines).2.length ∧ a = 0x00400000 + 4 * k ∧
        (k < (parse_source_code lines).2.length →
          ∃ s, (parse_source_code lines).2[k]? = some (a, s))) := by
  constructor
  · intro st line h1 h2 h3
    unfold processLine
    rw [if_neg h1, if_pos h2, if_pos h3]
  · intro lines nm a h
    obtain ⟨k, hk1, hk2⟩ := parse_label_addr lines nm a h
    refine ⟨k, hk1, hk2, ?_⟩
    intro hlt
    obtain ⟨⟨a1, s⟩, hp⟩ : ∃ p, (parse_source_code lines).2[k]? = some p :=
      ⟨_, List.getElem?_eq_getElem hlt⟩
    have ha1 := parse_instr_addr lines k a1 s hp
    refine ⟨s, ?_⟩
    rw [hp, ha1, ← hk2]

/-- Witness for C8: `LOOP:` alone binds the label and leaves the state's
records and address untouched, and the sole label of the program `["END:"]`
is bound at the address the next record would have received. -/
theorem label_only_line_witness :
    processLine initState "LOOP:" = ScanState.mk [("LOOP", 4194304)] [] 4194304 ∧
    (∃ k, k ≤ (parse_source_code ["END:"]).2.length ∧ (4194304 : Nat) = 0x00400000 + 4 * k ∧
      (k < (parse_source_code ["END:"]).2.length →
        ∃ s, (parse_source_code ["END:"]).2[k]? = some (4194304, s))) :=
  ⟨label_only_line_behavior.1 initState "LOOP:" (by decide) rfl rfl,
   label_only_line_behavior.2 ["END:"] "END" 4194304 rfl⟩

/-- Claim C9 counterexample: on the line `A:B:C` the scanner retains the
instruction text `B` — the segment between the first and second colons — and
not the full post-first-colon remainder `B:C` that the claim requires. -/
theorem colon_split_counterexample :
    (parse_source_code ["A:B:C"]).1 = [("A", 4194304)] ∧
    (parse_source_code ["A:B:C"]).2 = [(4194304, "B")] ∧
    "B" ≠ "B:C" :=
  ⟨rfl, rfl, by decide⟩

/-- Claim C9 (amended): for a line containing a colon, the stripped text
before the first colon is bound as a label at the current address, and the
retained instruction text is the stripped segment between the first and
second colons (the whole remainder only when no second colon exists); any
text after a second colon is discarded. -/
theorem colon_split_amended (st : ScanState) (line : String)
    (h1 : cleanedLine line ≠ "")
    (h2 : (cleanedLine line).data.contains ':' = true) :
    processLine st line =
      if instrPart (cleanedLine line) = "" then
        ScanState.mk ((labelPart (cleanedLine line), st.address) :: st.labels)
          st.instructions st.address
      else
        ScanState.mk ((labelPart (cleanedLine line), st.address) :: st.labels)
          (st.instructions ++ [(st.address, instrPart (cleanedLine line))])
          (st.address + 4) := by
  unfold processLine
  rw [if_neg h1, if_pos h2]

/-- Witness for C9 (amended) on `L: ADD $1,$2,$3 : junk`: the label is `L`,
the record text is `ADD $1,$2,$3`, and ` junk` is dropped. -/
theorem colon_split_amended_witness :
    processLine initState "L: ADD $1,$2,$3 : junk" =
      ScanState.mk [("L", 4194304)] [(4194304, "ADD $1,$2,$3")] 4194308 := by
  have h := colon_split_amended initState "L: ADD $1,$2,$3 : junk" (by decide) rfl
  exact h

/-- Claim C10: a line whose text before the first colon strips to the empty
string binds the empty string `""` as a label name at the current address
(no rejection, no error). -/
theorem empty_label_binding (st : ScanState) (line : String)
    (h1 : cleanedLine line ≠ "")
    (h2 : (cleanedLine line).data.contains ':' = true)
    (h3 : labelPart (cleanedLine line) = "") :
    (processLine st line).labels = ("", st.address) :: st.labels := by
  unfold processLine
  rw [if_neg h1, if_pos h2]
  by_cases h4 : instrPart (cleanedLine line) = ""
  · rw [if_pos h4]
    simp [h3]
  · rw [if_neg h4]
    simp [h3]

/-- Witness for C10: the line `: ADD $1,$2,$3` binds the empty label name at
the base address. -/
theorem empty_label_binding_witness :
    (processLine initState ": ADD $1,$2,$3").labels = [("", 4194304)] :=
  empty_label_binding initState ": ADD $1,$2,$3" (by decide) rfl rfl

/- ### Encoder error-path claims -/

/-- Claim C3 counterexample: `XYZ` matches none of the three tables, yet the
encoder raises no error at all — it returns Python `None`, i.e. an absent
encoding, contradicting the claim that it fails with `UnknownMnemonic` and
never returns an absent encoding. -/
theorem unknown_mnemonic_counterexample :
    rTable.lookup (pyUpper "XYZ") = none ∧ iTable.lookup (pyUpper "XYZ") = none ∧
    jTable.lookup (pyUpper "XYZ") = none ∧
    instruction_to_machine_code "XYZ $1,$2,$3" [] 4194304 = Except.ok none :=
  ⟨rfl, rfl, rfl, rfl⟩

/-- Claim C3 (amended): for every instruction whose first token
(case-insensitively) matches none of the R-, I-, or J-type tables, the
encoder returns an absent encoding (Python `None`) without raising any
error; it never returns a partial or zeroed word. -/
theorem unknown_mnemonic_amended (instr : String) (labels : List (String × Nat)) (addr : Nat)
    (h1 : rTable.lookup (pyUpper ((splitInstr instr).headD "")) = none)
    (h2 : iTable.lookup (pyUpper ((splitInstr instr).headD "")) = none)
    (h3 : jTable.lookup (pyUpper ((splitInstr instr).headD "")) = none) :
    instruction_to_machine_code instr labels addr = Except.ok none :=
  unknown_mnemonic_none instr labels addr h1 h2 h3

/-- Witness for C3 (amended): `FOO 1,2` yields `None`. -/
theorem unknown_mnemonic_amended_witness :
    instruction_to_machine_code "FOO 1,2" [] 0 = Except.ok none :=
  unknown_mnemonic_amended "FOO 1,2" [] 0 rfl rfl rfl

/-- Claim C5 (code bug): a negative `LW`/`SW` offset is rendered by
`format(offset, '016b')` as a minus sign followed by 15 zero-filled
magnitude digits, not as a 16-bit two's-complement field: the "word" emitted
for `LW $8,$9,-4` contains the character `-`.  (The correct two's-complement
field would be `1111111111111100`.) -/
theorem lw_negative_offset_bug :
    instruction_to_machine_code "LW $8,$9,-4" [] 4194304 =
      Except.ok (some "1000110100101000-000000000000100") ∧
    ("1000110100101000-000000000000100".data.contains '-') = true :=
  ⟨rfl, rfl⟩

/-- Claim C6 counterexample: the register token `$32` does not fit in 5 bits,
yet `reg_to_bin` reports no error — it returns the 6-character field
`100000`, corrupting the 32-bit word layout. -/
theorem register_range_counterexample :
    reg_to_bin "$32" = Except.ok "100000" ∧ ("100000" : String).length ≠ 5 :=
  ⟨rfl, by decide⟩

/-- Claim C6 (amended): a register token has its first character stripped
(whatever it is) and the remainder parsed by `int`: a non-integer remainder
raises `ValueError`; an in-range value `0 ≤ n < 32` encodes as the 5-bit
binary field; but an out-of-range value `n ≥ 32` is not rejected — it is
formatted with more than 5 binary digits. -/
theorem reg_to_bin_amended (reg : String) :
    (pyInt? (pyDrop reg 1) = none → reg_to_bin reg = Except.error PyError.valueError) ∧
    (∀ n : Nat, pyInt? (pyDrop reg 1) = some (n : Int) → n < 32 →
      reg_to_bin reg = Except.ok (String.mk (binFixed 5 n))) ∧
    (∀ n : Nat, pyInt? (pyDrop reg 1) = some (n : Int) → 32 ≤ n →
      reg_to_bin reg = Except.ok (pyFormatNatB n 5) ∧ 5 < (pyFormatNatB n 5).length) := by
  refine ⟨?_, ?_, ?_⟩
  · intro h
    unfold reg_to_bin
    rw [h]
  · intro n h hn
    exact reg_to_bin_ok reg n h hn
  · intro n h hn
    have hblen : 5 < bitLen n := by
      unfold bitLen
      rw [if_neg (by omega)]
      exact lt_bitLenAux n n 5 le_rfl (by norm_num; omega)
    constructor
    · unfold reg_to_bin
      rw [h]
      show Except.ok (pyFormatIntB ((n : Nat) : Int) 5) = Except.ok (pyFormatNatB n 5)
      rw [pyFormatIntB, if_neg (by omega), Int.toNat_natCast]
    · show 5 < (binFixed (max 5 (bitLen n)) n).length
      rw [binFixed_length]
      omega

/-- Witness for C6 (amended): `$7` parses to 7 and encodes as `00111`. -/
theorem reg_to_bin_amended_witness :
    pyInt? (pyDrop "$7" 1) = some ((7 : Nat) : Int) ∧
    reg_to_bin "$7" = Except.ok (String.mk (binFixed 5 7)) :=
  ⟨rfl, (reg_to_bin_amended "$7").2.1 7 rfl (by norm_num)⟩
